import Mathlib

/-!
Verification of the `timr` terminal countdown timer (Rust).

This file shallowly embeds the two source files of the repository:

* `src/main.rs` — the duration-string parser `parse_duration`, the argument
  guard in `main`, and the render loop; and
* `src/terminal.rs` — the terminal adapter (`get_width`-derived bar width).

Rust `u64`/`u16` values are modelled as `Nat` with explicit bound checks
where overflow matters: an arithmetic operation whose mathematical result
exceeds the type's maximum is modelled as a fatal error (`Except.error` /
`Option.none`), matching Rust's checked-overflow semantics under which the
repository's own test suite runs; where the release-build wrap-around
behaviour is itself of interest (the `u16` underflow in the bar-width
computation) a separate wrapping model is given alongside.
Fatal exits (`exit(1)`, `unwrap` panics, `unreachable!`) are modelled as
`Except.error` values.
-/

deriving instance DecidableEq for Except

/-- Maximum value of Rust's `u64`. -/
def U64_MAX : Nat := 2 ^ 64 - 1

/-- The fatal parse-time errors of `parse_duration` (each is an
`eprintln` + `exit(1)` or an `unwrap` panic in the source). -/
inductive ParseError where
  /-- "No number found before seconds/minutes/hours" + `exit(1)`:
  a unit letter was met while `current_number` was empty. -/
  | noNumberBeforeUnit (unit : Char)
  /-- "Invalid time!" + `exit(1)`: a character that is neither a decimal
  digit nor one of `s`/`m`/`h`. -/
  | invalidTime
  /-- Panic from `parse::<u64>().unwrap()` on a too-large digit group, or
  checked-arithmetic overflow in `seconds += v * mult`. -/
  | overflow
  deriving DecidableEq, Repr

/-- Rust's `'0'..='9'` match pattern. -/
def isAsciiDigit (c : Char) : Bool := '0' ≤ c && c ≤ '9'

/-- Numeric value of one ASCII digit. -/
def digitVal (c : Char) : Nat := c.toNat - '0'.toNat

/-- Numeric value of the digit buffer `current_number`
(what `current_number.parse::<u64>()` computes, unbounded). -/
def digitsVal (buf : List Char) : Nat :=
  buf.foldl (fun acc c => acc * 10 + digitVal c) 0

/-- A `u64` bound check: `ok` when the mathematical value is representable,
the overflow error otherwise.  Models both `parse::<u64>().unwrap()` (which
returns `Err`, hence panics, exactly on values above `u64::MAX`) and
checked `+`/`*` on `u64`. -/
def checkedU64 (n : Nat) : Except ParseError Nat :=
  if n ≤ U64_MAX then .ok n else .error .overflow

/-- One unit branch of the `for` loop in `parse_duration`
(`'s'`/`'m'`/`'h'` arms): fail if the buffer is empty, otherwise parse the
buffer as `u64`, multiply by the unit factor and add to `seconds`, with
every `u64` operation bound-checked. -/
def applyUnit (seconds : Nat) (buf : List Char) (mult : Nat) (u : Char) :
    Except ParseError Nat :=
  if buf.isEmpty then .error (.noNumberBeforeUnit u)
  else do
    let v ← checkedU64 (digitsVal buf)
    let p ← checkedU64 (v * mult)
    checkedU64 (seconds + p)

/-- The `for character in duration.chars()` loop of `parse_duration`,
with the mutable state (`seconds`, `current_number`) passed explicitly.
Returns the final accumulator and leftover digit buffer. -/
def scanChars : List Char → Nat → List Char → Except ParseError (Nat × List Char)
  | [], seconds, buf => .ok (seconds, buf)
  | c :: rest, seconds, buf =>
    if c = 's' then do
      let s ← applyUnit seconds buf 1 's'
      scanChars rest s []
    else if c = 'm' then do
      let s ← applyUnit seconds buf 60 'm'
      scanChars rest s []
    else if c = 'h' then do
      let s ← applyUnit seconds buf 3600 'h'
      scanChars rest s []
    else if isAsciiDigit c then
      scanChars rest seconds (buf ++ [c])
    else
      .error .invalidTime

/-- The trailing step of `parse_duration`: `if !current_number.is_empty()
{ seconds += current_number.parse::<u64>().unwrap(); }`. -/
def finishScan (seconds : Nat) (buf : List Char) : Except ParseError Nat :=
  if buf.isEmpty then .ok seconds
  else do
    let v ← checkedU64 (digitsVal buf)
    checkedU64 (seconds + v)

/-- The scan loop followed by the trailing step, from arbitrary
intermediate state: the workhorse behind `parse_duration`, kept separate so
the induction can generalize over the accumulator and buffer. -/
def runScan (l : List Char) (seconds : Nat) (buf : List Char) :
    Except ParseError Nat :=
  match scanChars l seconds buf with
  | .error e => .error e
  | .ok (s, b) => finishScan s b

/-- `parse_duration` from `src/main.rs` (lines 232-286): total seconds of a
compact duration string, or the fatal error the source exits with. -/
def parse_duration (s : String) : Except ParseError Nat :=
  runScan s.data 0 []

/-- Modelled from the spec's words (§4.1 algorithm): the same left-to-right
scan with unit multipliers 1/60/3600 and trailing digits as seconds, but
with unbounded integer arithmetic and no overflow condition.  `none` exactly
on shape violations (invalid character, unit with empty buffer). -/
def specScan : List Char → Nat → List Char → Option Nat
  | [], seconds, buf =>
    some (if buf.isEmpty then seconds else seconds + digitsVal buf)
  | c :: rest, seconds, buf =>
    if c = 's' then
      if buf.isEmpty then none else specScan rest (seconds + digitsVal buf * 1) []
    else if c = 'm' then
      if buf.isEmpty then none else specScan rest (seconds + digitsVal buf * 60) []
    else if c = 'h' then
      if buf.isEmpty then none else specScan rest (seconds + digitsVal buf * 3600) []
    else if isAsciiDigit c then
      specScan rest seconds (buf ++ [c])
    else
      none

/-- Modelled from the spec's words: the exact (unbounded) sum of each digit
group's value times its unit multiplier, accumulated left to right, trailing
bare digits counted as seconds; `none` when the string violates the grammar. -/
def spec_sum (s : String) : Option Nat := specScan s.data 0 []

/-- The characters the parser's `match` accepts: decimal digits and the
three unit letters. -/
def allowedChar (c : Char) : Bool :=
  isAsciiDigit c || c = 's' || c = 'm' || c = 'h'

/-- Claim-side predicate: the string contains a character other than a
decimal digit or one of the unit letters `s`/`m`/`h`. -/
def hasInvalidChar (s : String) : Bool :=
  !s.data.all allowedChar

/-- Claim-side predicate: some unit letter occurs while the pending digit
buffer is empty (tracking only buffer emptiness: digits fill the buffer,
units clear it). -/
def unitNoDigit : List Char → Bool → Bool
  | [], _ => false
  | c :: rest, hasBuf =>
    if c = 's' ∨ c = 'm' ∨ c = 'h' then
      !hasBuf || unitNoDigit rest false
    else if isAsciiDigit c then
      unitNoDigit rest true
    else
      unitNoDigit rest hasBuf

/-- Claim-side predicate on a string: a unit letter is met with no digit
group pending before it. -/
def unitNoDigitStr (s : String) : Bool := unitNoDigit s.data false

/-- Agreement between the checked scan (`runScan`, the code) and the
unbounded spec scan (`specScan`) from a shared intermediate state: when
the unbounded total is representable the code returns it exactly, when it
is not the code fails with the overflow error, and when the spec scan
rejects the shape the code fails with some fatal error. -/
def scanAgrees (l : List Char) (sec : Nat) (buf : List Char) : Prop :=
  (∀ n, specScan l sec buf = some n →
    runScan l sec buf = if n ≤ U64_MAX then .ok n else .error .overflow)
  ∧ (specScan l sec buf = none → ∃ e, runScan l sec buf = .error e)

/-- Fatal errors of `main`'s duration-resolution prologue (lines 87-121). -/
inductive MainError where
  /-- The `unreachable!("Duration must not be empty")` panic at line 90. -/
  | emptyDuration
  /-- A fatal `parse_duration` error. -/
  | parseErr (e : ParseError)
  /-- Any fatal failure on the profile-lookup path (missing config file,
  bad TOML, no profiles, no matching profile). -/
  | profileErr
  deriving DecidableEq, Repr

/-- The duration-resolution prologue of `main` (`src/main.rs` lines 87-121):
guard against the empty string (`unreachable!` panic), then dispatch on the
first character — a decimal digit means the argument itself is parsed, any
other first character triggers the config-profile lookup (an external
collaborator, abstracted as `lookup`). -/
def resolve_duration (lookup : String → Option String) (s : String) :
    Except MainError Nat :=
  if s.isEmpty then .error .emptyDuration
  else if isAsciiDigit (s.data.headD ' ') then
    (parse_duration s).mapError .parseErr
  else
    match lookup s with
    | none => .error .profileErr
    | some d => (parse_duration d).mapError .parseErr

/-- A checked `u16` subtraction (`a - b`): `none` models the underflow
panic of a debug/checked build when `b > a`. -/
def checkedSubU16 (a b : Nat) : Option Nat :=
  if b ≤ a then some (a - b) else none

/-- The `match` arms at `src/main.rs` lines 158-161 applied to the already
subtracted value: `n if n < 30 => n, _ => 30`. -/
def bar_width_of (n : Nat) : Nat := if n < 30 then n else 30

/-- `bar_width` as computed at `src/main.rs` lines 158-161 from the
terminal width `w` (`terminal::get_width() - 15` on `u16`, then clamp to at
most 30).  `none` models the `u16` underflow panic for `w < 15`. -/
def bar_width (w : Nat) : Option Nat :=
  (checkedSubU16 w 15).map bar_width_of

/-- The same computation under release-build wrap-around semantics: the
`u16` subtraction `w - 15` wraps modulo `2^16` instead of panicking. -/
def bar_width_wrapping (w : Nat) : Nat :=
  bar_width_of ((w + 2 ^ 16 - 15) % 2 ^ 16)

/-- Modelled from the spec's words: `bar_width = min(30, max(0, width - 15))`
over unbounded integers. -/
def bar_width_spec (w : Nat) : Int := min 30 (max 0 ((w : Int) - 15))

/-- Round-half-up of the exact ratio `num / den` as a natural number:
`⌊num / den + 1/2⌋ = (2 * num + den) / (2 * den)` (natural division).
This is Rust's `f64::round` (half away from zero) on the nonnegative exact
ratios the render loop forms; `ratRound_eq_round` below proves it equal to
Mathlib's `round` on `ℚ`.  For `den = 0` natural division yields `0`. -/
def ratRound (num den : Nat) : Nat := (2 * num + den) / (2 * den)

/-- One redraw's derived quantities (`src/main.rs` lines 163-164, 206, 210):
the bar width, the filled-cell count `progress_width`, and the displayed
percentage, with the `f64` ratio `progress = elapsed_ms / total_ms` kept
exact and `.round()` modelled by `ratRound`. -/
structure Redraw where
  barWidth : Nat
  progressWidth : Nat
  percent : Nat
  deriving DecidableEq, Repr

/-- Build the redraw sample at instant `now` (milliseconds) for a timer
started at `start` with deadline `deadline`, given the computed bar width
`b`: `progress = now.duration_since(start).as_millis() / duration.as_millis()`,
`progress_width = (progress * bar_width as f64).round() as u16`, and the
displayed percentage `(progress * 100.0).round()`. -/
def mkRedraw (start now deadline b : Nat) : Redraw :=
  let elapsed : Nat := now - start
  let total : Nat := deadline - start
  { barWidth := b
    progressWidth := ratRound (elapsed * b) total
    percent := ratRound (elapsed * 100) total }

/-- Result of one pass through the render-loop body
(`src/main.rs` lines 135-215), in the source's evaluation order. -/
inductive StepResult where
  /-- `exit_rx.try_recv()` succeeded: clear line, restore cursor, print
  "Exiting early!", flush, `return`. -/
  | cancelled
  /-- `now > end`: `break` out of the loop into the completion sequence. -/
  | completed
  /-- A panic inside the pass: the `u16` underflow in the bar-width
  computation, or the `stdout().flush().unwrap()` failure. -/
  | fatal
  /-- Less than 16 ms since `last_update`: sleep for the given deficit in
  milliseconds and `continue` (no rendering work, `last_update` kept). -/
  | sleepThenRepoll (deficit : Nat)
  /-- A full redraw was performed; `last_update` is set to `now`. -/
  | redrew (r : Redraw) (newLastUpdate : Nat)
  deriving DecidableEq, Repr

/-- One pass through the loop body, with all instants in milliseconds:
poll the cancellation mailbox, then the deadline check `now > end`, then
the 16 ms rate limiter (`BAR_UPDATE_INTERVAL`), else redraw at terminal
width `w` (`flushFail` tells whether this pass's output flush fails). -/
def loopStep (deadline lastUpdate : Nat) (sig : Bool) (now : Nat) (w : Nat)
    (flushFail : Bool) (start : Nat) : StepResult :=
  if sig then .cancelled
  else if deadline < now then .completed
  else if now - lastUpdate < 16 then .sleepThenRepoll (16 - (now - lastUpdate))
  else
    match bar_width w with
    | none => .fatal
    | some b => if flushFail then .fatal else .redrew (mkRedraw start now deadline b) now

/-- Per-iteration inputs of a run: whether the cancellation mailbox holds a
signal at the iteration's poll, the instant observed, the terminal width,
and whether the redraw's output flush fails. -/
structure Trace where
  sig : Nat → Bool
  now : Nat → Nat
  width : Nat → Nat
  flushFail : Nat → Bool

/-- Terminal states of the render loop. -/
inductive Outcome where
  | cancelledEarly
  | completed
  | fatal
  deriving DecidableEq, Repr

/-- How a run ends, together with the cursor-visibility state at process
termination (the loop entry hides the cursor at `src/main.rs` line 130;
the cancellation branch and the completion sequence each call
`terminal::set_cursor_visible(true)`; a panic terminates the process with
no further cursor writes). -/
structure RunResult where
  outcome : Outcome
  cursorVisible : Bool
  deriving DecidableEq, Repr

/-- Run the loop from iteration `i` with `fuel` remaining passes and
rate-limiter state `lastUpdate`; `none` when fuel runs out before a
terminal state. -/
def loopRun (t : Trace) (deadline start : Nat) :
    Nat → Nat → Nat → Option RunResult
  | 0, _, _ => none
  | fuel + 1, i, lastUpdate =>
    match loopStep deadline lastUpdate (t.sig i) (t.now i) (t.width i)
        (t.flushFail i) start with
    | .cancelled => some ⟨.cancelledEarly, true⟩
    | .completed => some ⟨.completed, true⟩
    | .fatal => some ⟨.fatal, false⟩
    | .sleepThenRepoll _ => loopRun t deadline start fuel (i + 1) lastUpdate
    | .redrew _ lu => loopRun t deadline start fuel (i + 1) lu

/-! ## Helper lemmas -/

theorem except_bind_ok {ε α β : Type} (a : α) (f : α → Except ε β) :
    (Except.ok a >>= f) = f a := rfl

theorem except_bind_err {ε α β : Type} (e : ε) (f : α → Except ε β) :
    ((Except.error e : Except ε α) >>= f) = .error e := rfl

/-- `ratRound` is Mathlib's `round` of the exact ratio, for a nonzero
denominator: it faithfully models `f64::round` on the nonnegative ratios
the render loop forms. -/
theorem ratRound_eq_round (num den : Nat) (h : 0 < den) :
    (ratRound num den : ℤ) = round ((num : ℚ) / (den : ℚ)) := by
  have hden : (den : ℚ) ≠ 0 := Nat.cast_ne_zero.mpr (by omega)
  have key : (num : ℚ) / (den : ℚ) + 1 / 2
      = ((2 * num + den : ℕ) : ℚ) / ((2 * den : ℕ) : ℚ) := by
    push_cast
    field_simp
    ring
  rw [round_eq, key, Rat.floor_natCast_div_natCast, ratRound]
  exact (Int.ofNat_tdiv _ _).symm

/-- Round-half-up of `(a/t) * b` never exceeds `b` when `a ≤ t`. -/
theorem ratRound_le (a t b : Nat) (h : a ≤ t) : ratRound (a * b) t ≤ b := by
  rcases Nat.eq_zero_or_pos t with ht | ht
  · subst ht
    unfold ratRound
    rw [Nat.mul_zero, Nat.div_zero]
    exact Nat.zero_le b
  · have hab : a * b ≤ t * b := Nat.mul_le_mul_right b h
    have h1 : 2 * (a * b) + t < (b + 1) * (2 * t) := by
      have : (b + 1) * (2 * t) = 2 * (t * b) + 2 * t := by ring
      omega
    have h2 : (2 * (a * b) + t) / (2 * t) < b + 1 :=
      (Nat.div_lt_iff_lt_mul (by omega)).mpr h1
    have := Nat.lt_succ_iff.mp h2
    simpa [ratRound] using this

theorem bar_width_of_le (n : Nat) : bar_width_of n ≤ 30 := by
  unfold bar_width_of
  split <;> omega

theorem bar_width_le (w b : Nat) (h : bar_width w = some b) : b ≤ 30 := by
  unfold bar_width checkedSubU16 at h
  split at h
  · have hb : bar_width_of (w - 15) = b := Option.some.inj h
    rw [← hb]
    exact bar_width_of_le _
  · simp at h

/-! ## Claims about the bar width and the redraw invariant -/

/-- C2: the spec says `bar_width = min(30, max(0, width - 15))`, clamped so
that widths below 15 give 0.  The code has no lower clamp: for `w ≥ 15` it
agrees with the spec formula, but at width 14 the `u16` subtraction
`get_width() - 15` underflows — a checked build panics (`none`), a release
build wraps to 65535 and yields bar width 30, never the 0 the spec
requires. -/
theorem claim_C2 :
    (∀ w, 15 ≤ w → bar_width w = some (bar_width_spec w).toNat)
    ∧ bar_width 14 = none
    ∧ bar_width_wrapping 14 = 30
    ∧ bar_width_spec 14 = 0 := by
  refine ⟨?_, by decide, by decide, by decide⟩
  intro w hw
  unfold bar_width checkedSubU16
  rw [if_pos hw]
  show some (bar_width_of (w - 15)) = _
  unfold bar_width_of bar_width_spec
  congr 1
  split
  · omega
  · omega

theorem claim_C2_witness : bar_width 80 = some (bar_width_spec 80).toNat :=
  claim_C2.1 80 (by decide)

/-- C3: at every redraw the loop performs (any reachable rate-limiter
state, any terminal width, any instant — the deadline check `now > end`
has already failed, so `now ≤ end`), the computed sample satisfies
`0 ≤ progress_width ≤ bar_width` and `bar_width ≤ 30`. -/
theorem claim_C3 (deadline lastUpdate : Nat) (sig : Bool) (now w : Nat)
    (ff : Bool) (start : Nat) (r : Redraw) (lu : Nat)
    (h : loopStep deadline lastUpdate sig now w ff start = .redrew r lu) :
    0 ≤ r.progressWidth ∧ r.progressWidth ≤ r.barWidth ∧ r.barWidth ≤ 30 := by
  cases sig with
  | true => simp [loopStep] at h
  | false =>
    unfold loopStep at h
    by_cases h1 : deadline < now
    · simp [h1] at h
    · by_cases h2 : now - lastUpdate < 16
      · simp [h1, h2] at h
      · rcases hbw : bar_width w with _ | b
        · simp [h1, h2, hbw] at h
        · cases ff with
          | true => simp [h1, h2, hbw] at h
          | false =>
            simp [h1, h2, hbw] at h
            obtain ⟨hr, hlu⟩ := h
            subst hr
            have hnow : now ≤ deadline := Nat.le_of_not_lt h1
            have helapsed : now - start ≤ deadline - start :=
              Nat.sub_le_sub_right hnow start
            refine ⟨Nat.zero_le _, ?_, bar_width_le w b hbw⟩
            simpa [mkRedraw] using
              ratRound_le (now - start) (deadline - start) b helapsed

theorem claim_C3_witness :
    0 ≤ (⟨30, 0, 2⟩ : Redraw).progressWidth
    ∧ (⟨30, 0, 2⟩ : Redraw).progressWidth ≤ (⟨30, 0, 2⟩ : Redraw).barWidth
    ∧ (⟨30, 0, 2⟩ : Redraw).barWidth ≤ 30 :=
  claim_C3 1000 0 false 16 80 false 0 ⟨30, 0, 2⟩ 16 (by decide)

/-! ## Claims about the render loop's control flow -/

/-- C8: a pass on which less than 16 ms has elapsed since `last_update`
does no rendering work and sleeps for exactly the deficit
`16 - elapsed` (which is positive and restores a full 16 ms interval),
keeping `last_update` unchanged; the run then re-evaluates the next pass
from the cancellation poll. -/
theorem claim_C8 :
    (∀ deadline lastUpdate now w ff start,
      ¬ deadline < now → now - lastUpdate < 16 →
      loopStep deadline lastUpdate false now w ff start
        = .sleepThenRepoll (16 - (now - lastUpdate))
      ∧ (16 - (now - lastUpdate)) + (now - lastUpdate) = 16
      ∧ 0 < 16 - (now - lastUpdate))
    ∧ (∀ t deadline start fuel i lastUpdate,
      t.sig i = false → ¬ deadline < t.now i → t.now i - lastUpdate < 16 →
      loopRun t deadline start (fuel + 1) i lastUpdate
        = loopRun t deadline start fuel (i + 1) lastUpdate) := by
  constructor
  · intro deadline lastUpdate now w ff start h1 h2
    refine ⟨by simp [loopStep, h1, h2], by omega, by omega⟩
  · intro t deadline start fuel i lastUpdate hs h1 h2
    simp [loopRun, loopStep, hs, h1, h2]

theorem claim_C8_witness :
    (loopStep 100 0 false 5 80 false 0 = .sleepThenRepoll 11
      ∧ 11 + 5 = 16 ∧ 0 < 11)
    ∧ loopRun ⟨fun _ => false, fun _ => 5, fun _ => 80, fun _ => false⟩
        100 0 3 0 0
      = loopRun ⟨fun _ => false, fun _ => 5, fun _ => 80, fun _ => false⟩
        100 0 2 1 0 :=
  ⟨claim_C8.1 100 0 5 80 false 0 (by omega) (by decide),
   claim_C8.2 ⟨fun _ => false, fun _ => 5, fun _ => 80, fun _ => false⟩
     100 0 2 0 0 rfl (by decide) (by decide)⟩

/-- C7: the cancellation poll is evaluated before the deadline check on
every pass, so a pass whose poll finds the mailbox signalled ends in
`CancelledEarly` whatever `now` is; consequently a run in which the signal
is pending by the time any poll could observe the deadline never ends
`Completed`, and a run whose next poll finds the signal pending ends
`CancelledEarly` at exactly that poll. -/
theorem claim_C7 :
    (∀ deadline lastUpdate now w ff start,
      loopStep deadline lastUpdate true now w ff start = .cancelled)
    ∧ (∀ t deadline start fuel i lastUpdate r,
      (∀ k, deadline < t.now k → t.sig k = true) →
      loopRun t deadline start fuel i lastUpdate = some r →
      r.outcome ≠ .completed)
    ∧ (∀ t deadline start fuel i lastUpdate, t.sig i = true →
      loopRun t deadline start (fuel + 1) i lastUpdate
        = some ⟨.cancelledEarly, true⟩) := by
  refine ⟨?_, ?_, ?_⟩
  · intro deadline lastUpdate now w ff start
    simp [loopStep]
  · intro t deadline start fuel
    induction fuel with
    | zero =>
      intro i lastUpdate r _ h
      simp [loopRun] at h
    | succ n ih =>
      intro i lastUpdate r hsig hrun
      cases hs : t.sig i with
      | true =>
        simp [loopRun, loopStep, hs] at hrun
        rw [← hrun]
        simp
      | false =>
        by_cases hd : deadline < t.now i
        · have := hsig i hd
          rw [hs] at this
          exact absurd this (by simp)
        · by_cases h16 : t.now i - lastUpdate < 16
          · simp [loopRun, loopStep, hs, hd, h16] at hrun
            exact ih (i + 1) lastUpdate r hsig hrun
          · rcases hbw : bar_width (t.width i) with _ | b
            · simp [loopRun, loopStep, hs, hd, h16, hbw] at hrun
              rw [← hrun]
              simp
            · cases hff : t.flushFail i with
              | true =>
                simp [loopRun, loopStep, hs, hd, h16, hbw, hff] at hrun
                rw [← hrun]
                simp
              | false =>
                simp [loopRun, loopStep, hs, hd, h16, hbw, hff] at hrun
                exact ih (i + 1) (t.now i) r hsig hrun
  · intro t deadline start fuel i lastUpdate h
    simp [loopRun, loopStep, h]

theorem claim_C7_witness :
    loopRun ⟨fun _ => true, fun _ => 0, fun _ => 80, fun _ => false⟩
      10 0 1 0 0
    = some ⟨.cancelledEarly, true⟩ :=
  claim_C7.2.2 ⟨fun _ => true, fun _ => 0, fun _ => 80, fun _ => false⟩
    10 0 0 0 0 rfl

/-- C9 (amended): the cursor is restored on the two regular exit paths —
normal completion and early cancellation — but on a fatal error (a failed
output flush during a redraw, or the bar-width underflow panic) the
process terminates with the cursor still hidden: no scoped teardown
exists in the code. -/
theorem claim_C9 (t : Trace) (deadline start fuel i lastUpdate : Nat)
    (r : RunResult)
    (h : loopRun t deadline start fuel i lastUpdate = some r) :
    ((r.outcome = .completed ∨ r.outcome = .cancelledEarly) →
      r.cursorVisible = true)
    ∧ (r.outcome = .fatal → r.cursorVisible = false) := by
  induction fuel generalizing i lastUpdate with
  | zero => simp [loopRun] at h
  | succ n ih =>
    rw [loopRun] at h
    cases hstep : loopStep deadline lastUpdate (t.sig i) (t.now i)
        (t.width i) (t.flushFail i) start with
    | cancelled =>
      rw [hstep] at h
      rw [← Option.some.inj h]
      simp
    | completed =>
      rw [hstep] at h
      rw [← Option.some.inj h]
      simp
    | fatal =>
      rw [hstep] at h
      rw [← Option.some.inj h]
      simp
    | sleepThenRepoll d =>
      rw [hstep] at h
      exact ih (i + 1) lastUpdate h
    | redrew rd lu =>
      rw [hstep] at h
      exact ih (i + 1) lu h

/-- C9 counterexample: a run whose first redraw's flush fails terminates
fatally with the cursor still hidden (`cursorVisible = false`), refuting
"cursor visibility is restored on every exit path". -/
theorem claim_C9_cex :
    loopRun ⟨fun _ => false, fun _ => 16, fun _ => 80, fun _ => true⟩
      10000 0 1 0 0
    = some ⟨.fatal, false⟩
    ∧ (⟨Outcome.fatal, false⟩ : RunResult).cursorVisible ≠ true := by
  exact ⟨rfl, by decide⟩

theorem claim_C9_witness :
    (((⟨Outcome.completed, true⟩ : RunResult).outcome = .completed
        ∨ (⟨Outcome.completed, true⟩ : RunResult).outcome = .cancelledEarly) →
      (⟨Outcome.completed, true⟩ : RunResult).cursorVisible = true)
    ∧ ((⟨Outcome.completed, true⟩ : RunResult).outcome = .fatal →
      (⟨Outcome.completed, true⟩ : RunResult).cursorVisible = false) :=
  claim_C9 ⟨fun _ => false, fun _ => 5, fun _ => 80, fun _ => false⟩
    4 0 1 0 0 ⟨.completed, true⟩ rfl

/-! ## Claims about the empty duration string -/

/-- C5: at the program's contract level (the caller guard at
`src/main.rs` lines 89-91 composed with the parser), an empty duration
string is a precondition violation: `main` hits
`unreachable!("Duration must not be empty")` and the parser is never
entered, so no duration value is ever produced for `""`. -/
theorem claim_C5 (lookup : String → Option String) :
    resolve_duration lookup "" = .error .emptyDuration
    ∧ ∀ n, resolve_duration lookup "" ≠ .ok n := by
  constructor
  · rfl
  · intro n h
    rw [show resolve_duration lookup "" = .error .emptyDuration from rfl] at h
    exact Except.noConfusion h

theorem claim_C5_witness :
    resolve_duration (fun _ => none) "" = .error .emptyDuration :=
  (claim_C5 (fun _ => none)).1

/-- C10: the parser itself performs no emptiness check: `parse_duration`
applied to `""` runs the scan over no characters, skips the trailing-digit
step, and successfully returns a zero-second duration; the only guard
against empty input is the caller's `unreachable!` assertion, which fires
before `parse_duration` is ever invoked. -/
theorem claim_C10 :
    parse_duration "" = .ok 0
    ∧ resolve_duration (fun _ => none) "" = .error .emptyDuration := by
  exact ⟨rfl, rfl⟩

/-! ## Parser refinement lemmas -/

theorem digitsVal_snoc (buf : List Char) (c : Char) :
    digitsVal (buf ++ [c]) = digitsVal buf * 10 + digitVal c := by
  unfold digitsVal
  rw [List.foldl_append]
  rfl

theorem isEmpty_snoc (buf : List Char) (c : Char) :
    (buf ++ [c]).isEmpty = false := by
  cases buf <;> rfl

/-- The unbounded spec scan only ever grows the accumulator: its result
dominates the running total plus the pending buffer's value. -/
theorem specScan_mono (l : List Char) :
    ∀ (sec : Nat) (buf : List Char) (n : Nat),
      specScan l sec buf = some n → sec + digitsVal buf ≤ n := by
  induction l with
  | nil =>
    intro sec buf n h
    have h' := Option.some.inj h
    by_cases hb : buf.isEmpty = true
    · rw [if_pos hb] at h'
      have hbuf : buf = [] := by
        cases buf
        · rfl
        · simp at hb
      subst hbuf
      have h0 : digitsVal ([] : List Char) = 0 := rfl
      omega
    · rw [if_neg hb] at h'
      omega
  | cons c rest ih =>
    intro sec buf n h
    unfold specScan at h
    by_cases hs : c = 's'
    · rw [if_pos hs] at h
      by_cases hb : buf.isEmpty = true
      · rw [if_pos hb] at h
        exact absurd h (by simp)
      · rw [if_neg hb] at h
        have hr := ih _ _ _ h
        have h0 : digitsVal ([] : List Char) = 0 := rfl
        omega
    · rw [if_neg hs] at h
      by_cases hm : c = 'm'
      · rw [if_pos hm] at h
        by_cases hb : buf.isEmpty = true
        · rw [if_pos hb] at h
          exact absurd h (by simp)
        · rw [if_neg hb] at h
          have hr := ih _ _ _ h
          have h0 : digitsVal ([] : List Char) = 0 := rfl
          omega
      · rw [if_neg hm] at h
        by_cases hh : c = 'h'
        · rw [if_pos hh] at h
          by_cases hb : buf.isEmpty = true
          · rw [if_pos hb] at h
            exact absurd h (by simp)
          · rw [if_neg hb] at h
            have hr := ih _ _ _ h
            have h0 : digitsVal ([] : List Char) = 0 := rfl
            omega
        · rw [if_neg hh] at h
          by_cases hd : isAsciiDigit c = true
          · rw [if_pos hd] at h
            have hr := ih _ _ _ h
            rw [digitsVal_snoc] at hr
            omega
          · rw [if_neg hd] at h
            exact absurd h (by simp)

theorem applyUnit_err_empty (sec : Nat) (buf : List Char) (mult : Nat)
    (u : Char) (hb : buf.isEmpty = true) :
    applyUnit sec buf mult u = .error (.noNumberBeforeUnit u) := by
  simp [applyUnit, hb]

theorem applyUnit_ok (sec : Nat) (buf : List Char) (mult : Nat) (u : Char)
    (hb : buf.isEmpty = false) (hm : 1 ≤ mult)
    (h : sec + digitsVal buf * mult ≤ U64_MAX) :
    applyUnit sec buf mult u = .ok (sec + digitsVal buf * mult) := by
  have hvm : digitsVal buf ≤ digitsVal buf * mult := by
    calc digitsVal buf = digitsVal buf * 1 := (Nat.mul_one _).symm
    _ ≤ digitsVal buf * mult := Nat.mul_le_mul (le_refl _) hm
  have h1 : digitsVal buf * mult ≤ U64_MAX := by omega
  have h2 : digitsVal buf ≤ U64_MAX := by omega
  simp [applyUnit, checkedU64, hb, h, h1, h2, except_bind_ok, except_bind_err]

theorem applyUnit_overflow (sec : Nat) (buf : List Char) (mult : Nat)
    (u : Char) (hb : buf.isEmpty = false)
    (h : U64_MAX < sec + digitsVal buf * mult) :
    applyUnit sec buf mult u = .error .overflow := by
  by_cases h2 : digitsVal buf ≤ U64_MAX
  · by_cases h1 : digitsVal buf * mult ≤ U64_MAX
    · have h3 : ¬ sec + digitsVal buf * mult ≤ U64_MAX := by omega
      simp [applyUnit, checkedU64, hb, h1, h2, h3, except_bind_ok, except_bind_err]
    · simp [applyUnit, checkedU64, hb, h1, h2, except_bind_ok, except_bind_err]
  · simp [applyUnit, checkedU64, hb, h2, except_bind_ok, except_bind_err]

theorem scanChars_cons_s (rest : List Char) (sec : Nat) (buf : List Char) :
    scanChars ('s' :: rest) sec buf
      = (applyUnit sec buf 1 's' >>= fun x => scanChars rest x []) := by
  simp [scanChars]

theorem scanChars_cons_m (rest : List Char) (sec : Nat) (buf : List Char) :
    scanChars ('m' :: rest) sec buf
      = (applyUnit sec buf 60 'm' >>= fun x => scanChars rest x []) := by
  simp [scanChars]

theorem scanChars_cons_h (rest : List Char) (sec : Nat) (buf : List Char) :
    scanChars ('h' :: rest) sec buf
      = (applyUnit sec buf 3600 'h' >>= fun x => scanChars rest x []) := by
  simp [scanChars]

theorem runScan_cons_unit_ok {mult : Nat} {u : Char} (rest : List Char)
    (sec : Nat) (buf : List Char) (x : Nat)
    (hc : scanChars (u :: rest) sec buf
      = (applyUnit sec buf mult u >>= fun x => scanChars rest x []))
    (h : applyUnit sec buf mult u = .ok x) :
    runScan (u :: rest) sec buf = runScan rest x [] := by
  unfold runScan
  rw [hc, h, except_bind_ok]

theorem runScan_cons_unit_err {mult : Nat} {u : Char} (rest : List Char)
    (sec : Nat) (buf : List Char) (e : ParseError)
    (hc : scanChars (u :: rest) sec buf
      = (applyUnit sec buf mult u >>= fun x => scanChars rest x []))
    (h : applyUnit sec buf mult u = .error e) :
    runScan (u :: rest) sec buf = .error e := by
  unfold runScan
  rw [hc, h, except_bind_err]

theorem runScan_cons_digit (c : Char) (rest : List Char) (sec : Nat)
    (buf : List Char) (hs : ¬ c = 's') (hm : ¬ c = 'm') (hh : ¬ c = 'h')
    (hd : isAsciiDigit c = true) :
    runScan (c :: rest) sec buf = runScan rest sec (buf ++ [c]) := by
  unfold runScan
  rw [show scanChars (c :: rest) sec buf = scanChars rest sec (buf ++ [c])
    by simp [scanChars, hs, hm, hh, hd]]

theorem runScan_cons_invalid (c : Char) (rest : List Char) (sec : Nat)
    (buf : List Char) (hs : ¬ c = 's') (hm : ¬ c = 'm') (hh : ¬ c = 'h')
    (hd : isAsciiDigit c = false) :
    runScan (c :: rest) sec buf = .error .invalidTime := by
  unfold runScan
  rw [show scanChars (c :: rest) sec buf = .error .invalidTime
    by simp [scanChars, hs, hm, hh, hd]]

/-- One unit-letter step preserves the agreement, for any of the three
units (the branch equations are passed in as hypotheses). -/
theorem unit_branch (rest : List Char) (sec : Nat) (buf : List Char)
    (mult : Nat) (u : Char) (hm : 1 ≤ mult)
    (hc : scanChars (u :: rest) sec buf
      = (applyUnit sec buf mult u >>= fun x => scanChars rest x []))
    (hspec : specScan (u :: rest) sec buf
      = if buf.isEmpty = true then none
        else specScan rest (sec + digitsVal buf * mult) [])
    (ih : ∀ (sec' : Nat) (buf' : List Char), sec' ≤ U64_MAX →
      scanAgrees rest sec' buf') :
    scanAgrees (u :: rest) sec buf := by
  by_cases hb : buf.isEmpty = true
  · constructor
    · intro n hn
      rw [hspec, if_pos hb] at hn
      exact absurd hn (by simp)
    · intro _
      exact ⟨.noNumberBeforeUnit u,
        runScan_cons_unit_err rest sec buf _ hc
          (applyUnit_err_empty sec buf mult u hb)⟩
  · have hbf : buf.isEmpty = false := by
      revert hb
      cases buf.isEmpty <;> simp
    by_cases hover : sec + digitsVal buf * mult ≤ U64_MAX
    · have happ := applyUnit_ok sec buf mult u hbf hm hover
      have hrun := runScan_cons_unit_ok rest sec buf _ hc happ
      have hih := ih (sec + digitsVal buf * mult) [] hover
      constructor
      · intro n hn
        rw [hspec, if_neg hb] at hn
        rw [hrun]
        exact hih.1 n hn
      · intro hn
        rw [hspec, if_neg hb] at hn
        obtain ⟨e, he⟩ := hih.2 hn
        exact ⟨e, by rw [hrun]; exact he⟩
    · have happ := applyUnit_overflow sec buf mult u hbf (by omega)
      have hrun := runScan_cons_unit_err rest sec buf _ hc happ
      constructor
      · intro n hn
        rw [hspec, if_neg hb] at hn
        have hmono := specScan_mono rest _ _ n hn
        have h0 : digitsVal ([] : List Char) = 0 := rfl
        rw [hrun, if_neg (by omega)]
      · intro _
        exact ⟨.overflow, hrun⟩

/-- The checked scan of the code agrees with the unbounded spec scan from
every intermediate state whose accumulator is representable. -/
theorem scan_ref (l : List Char) :
    ∀ (sec : Nat) (buf : List Char), sec ≤ U64_MAX → scanAgrees l sec buf := by
  induction l with
  | nil =>
    intro sec buf hsec
    constructor
    · intro n hn
      have h' : (if buf.isEmpty = true then sec else sec + digitsVal buf) = n :=
        Option.some.inj hn
      show finishScan sec buf = _
      by_cases hb : buf.isEmpty = true
      · rw [if_pos hb] at h'
        subst h'
        rw [if_pos hsec]
        simp [finishScan, hb]
      · rw [if_neg hb] at h'
        subst h'
        have hbf : buf.isEmpty = false := by
          revert hb
          cases buf.isEmpty <;> simp
        by_cases h2 : digitsVal buf ≤ U64_MAX
        · by_cases h3 : sec + digitsVal buf ≤ U64_MAX
          · rw [if_pos h3]
            simp [finishScan, checkedU64, hbf, h2, h3, except_bind_ok]
          · rw [if_neg h3]
            simp [finishScan, checkedU64, hbf, h2, h3, except_bind_ok]
        · rw [if_neg (by omega : ¬ sec + digitsVal buf ≤ U64_MAX)]
          simp [finishScan, checkedU64, hbf, h2, except_bind_err]
    · intro hn
      exact absurd hn (by simp [specScan])
  | cons c rest ih =>
    intro sec buf hsec
    by_cases hs : c = 's'
    · subst hs
      exact unit_branch rest sec buf 1 's' (by omega)
        (scanChars_cons_s rest sec buf) (by simp [specScan]) ih
    · by_cases hm : c = 'm'
      · subst hm
        exact unit_branch rest sec buf 60 'm' (by omega)
          (scanChars_cons_m rest sec buf) (by simp [specScan]) ih
      · by_cases hh : c = 'h'
        · subst hh
          exact unit_branch rest sec buf 3600 'h' (by omega)
            (scanChars_cons_h rest sec buf) (by simp [specScan]) ih
        · by_cases hd : isAsciiDigit c = true
          · have hrun := runScan_cons_digit c rest sec buf hs hm hh hd
            have hspec : specScan (c :: rest) sec buf
                = specScan rest sec (buf ++ [c]) := by
              simp [specScan, hs, hm, hh, hd]
            have hih := ih sec (buf ++ [c]) hsec
            constructor
            · intro n hn
              rw [hspec] at hn
              rw [hrun]
              exact hih.1 n hn
            · intro hn
              rw [hspec] at hn
              obtain ⟨e, he⟩ := hih.2 hn
              exact ⟨e, by rw [hrun]; exact he⟩
          · have hd' : isAsciiDigit c = false := by
              revert hd
              cases isAsciiDigit c <;> simp
            have hrun := runScan_cons_invalid c rest sec buf hs hm hh hd'
            constructor
            · intro n hn
              rw [show specScan (c :: rest) sec buf = none
                by simp [specScan, hs, hm, hh, hd']] at hn
              exact absurd hn (by simp)
            · intro _
              exact ⟨.invalidTime, hrun⟩

/-- An all-digit tail just extends the pending buffer: the spec scan
accepts it and folds everything (buffer plus tail) as one digit group. -/
theorem specScan_digits (l : List Char) :
    ∀ (sec : Nat) (buf : List Char), l.all isAsciiDigit = true →
      specScan l sec buf
        = some (if (buf ++ l).isEmpty = true then sec
                else sec + digitsVal (buf ++ l)) := by
  induction l with
  | nil =>
    intro sec buf _
    simp [specScan]
  | cons c rest ih =>
    intro sec buf hall
    rw [List.all_cons, Bool.and_eq_true] at hall
    obtain ⟨hd, hrest⟩ := hall
    have hs : ¬ c = 's' := by
      rintro rfl
      exact absurd hd (by decide)
    have hm : ¬ c = 'm' := by
      rintro rfl
      exact absurd hd (by decide)
    have hh : ¬ c = 'h' := by
      rintro rfl
      exact absurd hd (by decide)
    rw [show specScan (c :: rest) sec buf = specScan rest sec (buf ++ [c])
      by simp [specScan, hs, hm, hh, hd]]
    rw [ih sec (buf ++ [c]) hrest]
    have hassoc : (buf ++ [c]) ++ rest = buf ++ (c :: rest) := by
      simp
    rw [hassoc]

/-- Every all-digit string's spec sum is its own numeric value. -/
theorem spec_sum_digits (s : String) (h : s.data.all isAsciiDigit = true) :
    spec_sum s = some (digitsVal s.data) := by
  show specScan s.data 0 [] = _
  rw [specScan_digits s.data 0 [] h]
  cases hl : s.data with
  | nil => rfl
  | cons a l' => simp [List.nil_append]

/-- The spec scan accepts a string exactly when every character is allowed
and no unit letter is met with an empty pending buffer. -/
theorem specScan_isSome (l : List Char) :
    ∀ (sec : Nat) (buf : List Char),
      (specScan l sec buf).isSome
        = (l.all allowedChar && !unitNoDigit l (!buf.isEmpty)) := by
  induction l with
  | nil =>
    intro sec buf
    simp [specScan, unitNoDigit]
  | cons c rest ih =>
    intro sec buf
    by_cases hs : c = 's'
    · subst hs
      by_cases hb : buf.isEmpty = true
      · simp [specScan, unitNoDigit, hb, allowedChar]
      · have hbf : buf.isEmpty = false := by
          revert hb
          cases buf.isEmpty <;> simp
        simp [specScan, unitNoDigit, hbf, allowedChar, ih]
    · by_cases hm : c = 'm'
      · subst hm
        by_cases hb : buf.isEmpty = true
        · simp [specScan, unitNoDigit, hb, allowedChar]
        · have hbf : buf.isEmpty = false := by
            revert hb
            cases buf.isEmpty <;> simp
          simp [specScan, unitNoDigit, hbf, allowedChar, ih]
      · by_cases hh : c = 'h'
        · subst hh
          by_cases hb : buf.isEmpty = true
          · simp [specScan, unitNoDigit, hb, allowedChar]
          · have hbf : buf.isEmpty = false := by
              revert hb
              cases buf.isEmpty <;> simp
            simp [specScan, unitNoDigit, hbf, allowedChar, ih]
        · by_cases hd : isAsciiDigit c = true
          · rw [show specScan (c :: rest) sec buf
                = specScan rest sec (buf ++ [c])
              by simp [specScan, hs, hm, hh, hd]]
            rw [ih sec (buf ++ [c])]
            simp [unitNoDigit, allowedChar, hs, hm, hh, hd, isEmpty_snoc]
          · have hd' : isAsciiDigit c = false := by
              revert hd
              cases isAsciiDigit c <;> simp
            rw [show specScan (c :: rest) sec buf = none
              by simp [specScan, hs, hm, hh, hd']]
            simp [allowedChar, hs, hm, hh, hd']

/-! ## Claims about the parser -/

/-- C4: numeric overflow during parsing is a fatal error — any input whose
unbounded total exceeds `u64::MAX` makes the parser exit with the overflow
error — and every successfully returned total exactly equals the
mathematical (unbounded-integer) left-to-right sum of the unit groups. -/
theorem claim_C4 :
    (∀ s n, parse_duration s = .ok n → spec_sum s = some n ∧ n ≤ U64_MAX)
    ∧ (∀ s n, spec_sum s = some n → U64_MAX < n →
        parse_duration s = .error .overflow) := by
  constructor
  · intro s n h
    rcases hs : spec_sum s with _ | m
    · obtain ⟨e, he⟩ := (scan_ref s.data 0 [] (Nat.zero_le _)).2 hs
      rw [show parse_duration s = runScan s.data 0 [] from rfl, he] at h
      exact Except.noConfusion h
    · have h1 := (scan_ref s.data 0 [] (Nat.zero_le _)).1 m hs
      rw [show parse_duration s = runScan s.data 0 [] from rfl, h1] at h
      by_cases hmax : m ≤ U64_MAX
      · rw [if_pos hmax] at h
        have hnm := Except.ok.inj h
        subst hnm
        exact ⟨rfl, hmax⟩
      · rw [if_neg hmax] at h
        exact Except.noConfusion h
  · intro s n hs hlt
    have h1 := (scan_ref s.data 0 [] (Nat.zero_le _)).1 n hs
    rw [if_neg (by omega)] at h1
    exact h1

theorem claim_C4_witness :
    parse_duration "18446744073709551616" = .error .overflow :=
  claim_C4.2 "18446744073709551616" 18446744073709551616
    (by decide) (by decide)

/-- C1 counterexample: the claim quantifies over every digits-and-units
string with each unit preceded by digits, and asserts in particular that
every all-digit input parses to its own numeric value; the 20-digit input
`99999999999999999999` (value `10^20 - 1 > u64::MAX`) instead makes the
parser exit with a fatal overflow error. -/
theorem claim_C1_cex :
    parse_duration "99999999999999999999"
      ≠ .ok 99999999999999999999 := by
  decide

/-- C1 (amended): provided the accumulated total is representable in `u64`
(no numeric overflow), `parse` returns the exact left-to-right sum of each
digit group's value times its unit multiplier (s = 1, m = 60, h = 3600),
a trailing bare digit group counting as seconds, for any unit order or
repetition; every all-digit input whose value fits parses to its own
value, and the four reference examples hold. -/
theorem claim_C1 :
    (∀ s n, spec_sum s = some n → n ≤ U64_MAX → parse_duration s = .ok n)
    ∧ (∀ s, s.data.all isAsciiDigit = true → digitsVal s.data ≤ U64_MAX →
        parse_duration s = .ok (digitsVal s.data))
    ∧ parse_duration "1h30m15s" = .ok 5415
    ∧ parse_duration "90s" = .ok 90
    ∧ parse_duration "2h" = .ok 7200
    ∧ parse_duration "1h1m1" = .ok 3661 := by
  have key : ∀ s n, spec_sum s = some n → n ≤ U64_MAX →
      parse_duration s = .ok n := by
    intro s n hs hle
    have h1 := (scan_ref s.data 0 [] (Nat.zero_le _)).1 n hs
    rw [if_pos hle] at h1
    exact h1
  refine ⟨key, ?_, by decide, by decide, by decide, by decide⟩
  intro s hall hle
  exact key s _ (spec_sum_digits s hall) hle

theorem claim_C1_witness : parse_duration "45" = .ok 45 :=
  claim_C1.1 "45" 45 (by decide) (by decide)

/-- C6 counterexample: the 21-digit input `123456789012345678901` is
non-empty, contains no invalid character and no unit letter with an empty
buffer, yet the parser rejects it (fatal overflow) — refuting "inputs with
neither condition are accepted". -/
theorem claim_C6_cex :
    hasInvalidChar "123456789012345678901" = false
    ∧ unitNoDigitStr "123456789012345678901" = false
    ∧ ("123456789012345678901" : String) ≠ ""
    ∧ parse_duration "123456789012345678901" = .error .overflow := by
  refine ⟨by decide, by decide, by decide, by decide⟩

/-- C6 (amended): for every non-empty input, `parse` fails with a fatal
error exactly when the input contains a character other than a decimal
digit or `s`/`m`/`h`, or a unit letter appears while the pending digit
buffer is empty, or the accumulated value overflows `u64`; inputs with
none of the three conditions are accepted. -/
theorem claim_C6 (s : String) (_hne : s ≠ "") :
    (∃ e, parse_duration s = .error e)
      ↔ (hasInvalidChar s = true ∨ unitNoDigitStr s = true
          ∨ ∃ n, spec_sum s = some n ∧ U64_MAX < n) := by
  constructor
  · rintro ⟨e, he⟩
    by_contra hcon
    push_neg at hcon
    obtain ⟨hinv, hund, hovf⟩ := hcon
    have h1 : s.data.all allowedChar = true := by
      unfold hasInvalidChar at hinv
      revert hinv
      cases s.data.all allowedChar <;> simp
    have h2 : unitNoDigit s.data false = false := by
      unfold unitNoDigitStr at hund
      revert hund
      cases unitNoDigit s.data false <;> simp
    have hsome : (spec_sum s).isSome = true := by
      show (specScan s.data 0 []).isSome = true
      rw [specScan_isSome]
      simp [h1, h2]
    obtain ⟨n, hn⟩ := Option.isSome_iff_exists.mp hsome
    have hle : n ≤ U64_MAX := hovf n hn
    have h3 := (scan_ref s.data 0 [] (Nat.zero_le _)).1 n hn
    rw [if_pos hle] at h3
    rw [show parse_duration s = runScan s.data 0 [] from rfl, h3] at he
    exact Except.noConfusion he
  · intro h
    rcases h with hinv | hund | ⟨n, hn, hovf⟩
    · have h1 : s.data.all allowedChar = false := by
        unfold hasInvalidChar at hinv
        revert hinv
        cases s.data.all allowedChar <;> simp
      have hnone : spec_sum s = none := by
        have hi : (specScan s.data 0 []).isSome = false := by
          rw [specScan_isSome]
          simp [h1]
        show specScan s.data 0 [] = none
        revert hi
        cases specScan s.data 0 [] <;> simp
      exact (scan_ref s.data 0 [] (Nat.zero_le _)).2 hnone
    · have hnone : spec_sum s = none := by
        have hi : (specScan s.data 0 []).isSome = false := by
          rw [specScan_isSome]
          unfold unitNoDigitStr at hund
          simp [hund]
        show specScan s.data 0 [] = none
        revert hi
        cases specScan s.data 0 [] <;> simp
      exact (scan_ref s.data 0 [] (Nat.zero_le _)).2 hnone
    · have h1 := (scan_ref s.data 0 [] (Nat.zero_le _)).1 n hn
      rw [if_neg (by omega)] at h1
      exact ⟨.overflow, h1⟩

theorem claim_C6_witness :
    (∃ e, parse_duration "5x" = .error e)
      ↔ (hasInvalidChar "5x" = true ∨ unitNoDigitStr "5x" = true
          ∨ ∃ n, spec_sum "5x" = some n ∧ U64_MAX < n) :=
  claim_C6 "5x" (by decide)

/-! ## Concrete evaluation checks -/

example : bar_width 80 = some 30 := by decide
example : bar_width 20 = some 5 := by decide
example : bar_width 14 = none := by decide
example : bar_width_wrapping 14 = 30 := by decide
example : bar_width_spec 14 = 0 := by decide
example : (mkRedraw 0 500 1000 30).progressWidth = 15 := by decide
example : (mkRedraw 0 16 1000 30).progressWidth = 0 := by decide
example : spec_sum "1h30m15s" = some 5415 := by decide
example : spec_sum "" = some 0 := by decide
example : spec_sum "m5" = none := by decide
example : hasInvalidChar "5x" = true := by decide
example : unitNoDigitStr "m5" = true := by decide
example : unitNoDigitStr "1h1m1" = false := by decide
example : resolve_duration (fun _ => none) "" = .error .emptyDuration := by decide
example : resolve_duration (fun _ => none) "90s" = .ok 90 := by decide
example : parse_duration "1h30m15s" = .ok 5415 := by decide
example : parse_duration "90s" = .ok 90 := by decide
example : parse_duration "2h" = .ok 7200 := by decide
example : parse_duration "1h1m1" = .ok 3661 := by decide
example : parse_duration "45" = .ok 45 := by decide
example : parse_duration "" = .ok 0 := by decide
example : parse_duration "m5" = .error (.noNumberBeforeUnit 'm') := by decide
example : parse_duration "5x" = .error .invalidTime := by decide
